import Mathlib

/-!
Shallow embedding of `src/benchmark.py` (pykeen/nonparametric-baseline-benchmark).

The orchestration core of the benchmark harness is embedded as executable Lean
definitions: the configuration grid generator (`getSettings`, `buildGrid`),
the cache key encoder (`jsonDumpsSorted`, `sha256hex`, `kwargsHash`), the
result-cache path scheme (`cachePath`), the trial runner (`runTrials`) with an
explicit trace of external effects, and the result aggregator
(`buildColumns`, flattening).  External collaborators (pykeen datasets,
models, the rank-based evaluator, wall-clock time, the filesystem) are
parameters: a `RunEnv` of oracles, so every claim about the orchestration
logic is a statement over all behaviours of the collaborators.
-/

namespace Benchmark

/-- A Python value as it occurs in this program: strings, ints (all counts are
nonnegative), bools, `None`, and float literals.  Floats appear only as the
literal thresholds `0.1` and `0.3` and as opaque outputs of timing and
evaluation; the program never does arithmetic on them, only serializes and
stores them, so a float is carried by its `repr` text (identical to the source
literal for `0.1` and `0.3`). -/
inductive Val where
  | s (v : String)
  | n (v : Nat)
  | b (v : Bool)
  | none
  | num (lit : String)
  deriving DecidableEq, Repr

/-- Rendering by `json.dumps` of one value (Python's default encoder). Strings in
kwargs never occur in this program and never need escaping here. -/
def jsonValStr : Val → String
  | Val.s v => "\"" ++ v ++ "\""
  | Val.n v => toString v
  | Val.b true => "true"
  | Val.b false => "false"
  | Val.none => "null"
  | Val.num lit => lit

/-- Python's strict string comparison: lexicographic on code points. -/
def pyStrLtB : List Char → List Char → Bool
  | [], [] => false
  | [], _ :: _ => true
  | _ :: _, [] => false
  | a :: as, b :: bs =>
    if a.toNat < b.toNat then true
    else if b.toNat < a.toNat then false
    else pyStrLtB as bs

/-- Python's non-strict string comparison `a <= b`. -/
def pyLeB (a b : String) : Bool := !(pyStrLtB b.toList a.toList)

/-- Key-ordering relation used by `sort_keys=True`: compare entries of the
parameter mapping by their key, in Python's string order. -/
def keyLe (a b : String × Val) : Prop := pyLeB a.1 b.1 = true

instance : DecidableRel keyLe :=
  fun a b => inferInstanceAs (Decidable (pyLeB a.1 b.1 = true))

/-- Embedding of `json.dumps(model_kwargs, sort_keys=True)`: sort the entries
of the mapping by key, then serialize with Python's default separators
`", "` and `": "`. -/
def jsonDumpsSorted (kwargs : List (String × Val)) : String :=
  let entries := (List.insertionSort keyLe kwargs).map
    (fun kv => "\"" ++ kv.1 ++ "\": " ++ jsonValStr kv.2)
  "\x7b" ++ String.intercalate ", " entries ++ "\x7d"

/-- UTF-8 bytes of an ASCII string (`.encode("utf-8")`); every string this
program hashes is ASCII, where UTF-8 bytes coincide with code points. -/
def strBytes (s : String) : List Nat := s.toList.map Char.toNat

/-! ### SHA-256 over `Nat` (words are `Nat` values reduced mod `2^32`) -/

/-- Right rotation of a 32-bit word. -/
def rotr (n x : Nat) : Nat := ((x >>> n) ||| (x <<< (32 - n))) % 2 ^ 32

/-- SHA-256 small sigma 0. -/
def ssig0 (x : Nat) : Nat := (rotr 7 x) ^^^ (rotr 18 x) ^^^ (x >>> 3)

/-- SHA-256 small sigma 1. -/
def ssig1 (x : Nat) : Nat := (rotr 17 x) ^^^ (rotr 19 x) ^^^ (x >>> 10)

/-- SHA-256 big sigma 0. -/
def bsig0 (x : Nat) : Nat := (rotr 2 x) ^^^ (rotr 13 x) ^^^ (rotr 22 x)

/-- SHA-256 big sigma 1. -/
def bsig1 (x : Nat) : Nat := (rotr 6 x) ^^^ (rotr 11 x) ^^^ (rotr 25 x)

/-- SHA-256 round constants. -/
def sha256K : List Nat :=
  [1116352408, 1899447441, 3049323471, 3921009573, 961987163, 1508970993, 2453635748, 2870763221,
   3624381080, 310598401, 607225278, 1426881987, 1925078388, 2162078206, 2614888103, 3248222580,
   3835390401, 4022224774, 264347078, 604807628, 770255983, 1249150122, 1555081692, 1996064986,
   2554220882, 2821834349, 2952996808, 3210313671, 3336571891, 3584528711, 113926993, 338241895,
   666307205, 773529912, 1294757372, 1396182291, 1695183700, 1986661051, 2177026350, 2456956037,
   2730485921, 2820302411, 3259730800, 3345764771, 3516065817, 3600352804, 4094571909, 275423344,
   430227734, 506948616, 659060556, 883997877, 958139571, 1322822218, 1537002063, 1747873779,
   1955562222, 2024104815, 2227730452, 2361852424, 2428436474, 2756734187, 3204031479, 3329325298]

/-- SHA-256 initial hash value. -/
def sha256H0 : List Nat :=
  [1779033703, 3144134277, 1013904242, 2773480762,
   1359893119, 2600822924, 528734635, 1541459225]

/-- Pad a byte message: append `0x80`, zeros, and the 8-byte big-endian bit
length, reaching a multiple of 64 bytes. -/
def sha256pad (msg : List Nat) : List Nat :=
  let L := msg.length
  let zeros := (64 - (L + 9) % 64) % 64
  msg ++ [0x80] ++ List.replicate zeros 0 ++
    ((List.range 8).map (fun i => ((L * 8) >>> (56 - 8 * i)) % 256))

/-- Split a (padded) byte list into 64-byte chunks; `n` is the chunk count. -/
def chunks64 : Nat → List Nat → List (List Nat)
  | 0, _ => []
  | n + 1, l => l.take 64 :: chunks64 n (l.drop 64)

/-- Big-endian 32-bit words of a byte list. -/
def wordsOfBytes : Nat → List Nat → List Nat
  | 0, _ => []
  | n + 1, l =>
    (l.getD 0 0 * 2 ^ 24 + l.getD 1 0 * 2 ^ 16 + l.getD 2 0 * 2 ^ 8 + l.getD 3 0)
      :: wordsOfBytes n (l.drop 4)

/-- Extend the 16 message words to 64; the accumulator is kept reversed so the
four taps are near the head. -/
def sha256extend : Nat → List Nat → List Nat
  | 0, acc => acc.reverse
  | n + 1, acc =>
    let w2 := acc.getD 1 0
    let w7 := acc.getD 6 0
    let w15 := acc.getD 14 0
    let w16 := acc.getD 15 0
    sha256extend n (((w16 + ssig0 w15 + w7 + ssig1 w2) % 2 ^ 32) :: acc)

/-- The eight working variables of the compression loop. -/
structure Sha256State where
  a : Nat
  b : Nat
  c : Nat
  d : Nat
  e : Nat
  f : Nat
  g : Nat
  h : Nat
  deriving Repr

/-- One compression round with round constant `k` and schedule word `w`. -/
def sha256round (st : Sha256State) (kw : Nat × Nat) : Sha256State :=
  let ch := (st.e &&& st.f) ^^^ ((st.e ^^^ (2 ^ 32 - 1)) &&& st.g)
  let maj := (st.a &&& st.b) ^^^ (st.a &&& st.c) ^^^ (st.b &&& st.c)
  let t1 := (st.h + bsig1 st.e + ch + kw.1 + kw.2) % 2 ^ 32
  let t2 := (bsig0 st.a + maj) % 2 ^ 32
  ⟨(t1 + t2) % 2 ^ 32, st.a, st.b, st.c, (st.d + t1) % 2 ^ 32, st.e, st.f, st.g⟩

/-- Compress one 64-byte block into the running hash (a list of 8 words). -/
def sha256compress (hs : List Nat) (block : List Nat) : List Nat :=
  let w16 := wordsOfBytes 16 block
  let w := sha256extend 48 w16.reverse
  let init : Sha256State :=
    ⟨hs.getD 0 0, hs.getD 1 0, hs.getD 2 0, hs.getD 3 0,
     hs.getD 4 0, hs.getD 5 0, hs.getD 6 0, hs.getD 7 0⟩
  let fin := (sha256K.zip w).foldl sha256round init
  [(hs.getD 0 0 + fin.a) % 2 ^ 32, (hs.getD 1 0 + fin.b) % 2 ^ 32,
   (hs.getD 2 0 + fin.c) % 2 ^ 32, (hs.getD 3 0 + fin.d) % 2 ^ 32,
   (hs.getD 4 0 + fin.e) % 2 ^ 32, (hs.getD 5 0 + fin.f) % 2 ^ 32,
   (hs.getD 6 0 + fin.g) % 2 ^ 32, (hs.getD 7 0 + fin.h) % 2 ^ 32]

/-- Hexadecimal digit for a nibble. -/
def hexDigit (n : Nat) : Char :=
  if n < 10 then Char.ofNat (48 + n) else Char.ofNat (87 + n)

/-- Lowercase hexadecimal rendering of one 32-bit word (8 digits). -/
def wordHex (w : Nat) : List Char :=
  (List.range 8).map (fun i => hexDigit ((w >>> (28 - 4 * i)) % 16))

/-- Embedding of `hashlib.sha256(bytes).hexdigest()`: the 64-character lowercase hex digest. -/
def sha256hex (msg : List Nat) : String :=
  let padded := sha256pad msg
  let hs := (chunks64 (padded.length / 64) padded).foldl sha256compress sha256H0
  String.mk (hs.flatMap wordHex)

/-- Python slicing `s[:n]` on an ASCII string: the first `n` characters. -/
def strTake (s : String) (n : Nat) : String := String.mk (s.toList.take n)

/-- The cache key of a parameter mapping, from `_run_trials`:
`hashlib.sha256(json.dumps(model_kwargs, sort_keys=True).encode("utf-8")).hexdigest()[:8]`. -/
def kwargsHash (kwargs : List (String × Val)) : String :=
  strTake (sha256hex (strBytes (jsonDumpsSorted kwargs))) 8

/-! ### Model configurations and the grid (`_get_settings`, `_build`) -/

/-- The two baseline model classes instantiated by this program. -/
inductive ModelCls where
  | MarginalDistributionBaseline
  | SoftInverseTripleBaseline
  deriving DecidableEq, Repr

/-- Embedding of `model_cls.__name__`. -/
def ModelCls.clsName : ModelCls → String
  | ModelCls.MarginalDistributionBaseline => "MarginalDistributionBaseline"
  | ModelCls.SoftInverseTripleBaseline => "SoftInverseTripleBaseline"

/-- Embedding of `model_cls.__name__[: -len("Baseline")]`. -/
def modelShortName (m : ModelCls) : String := m.clsName.dropRight "Baseline".length

/-- One model configuration: a model class together with its kwargs mapping. -/
abbrev Setting := ModelCls × List (String × Val)

/-- Embedding of `_get_settings`: the four marginal-distribution variants from
`itertools.product([True, False], repeat=2)`, then one soft-inverse-triple
variant per threshold in `[None, 0.1, 0.3]`. -/
def get_settings : List Setting :=
  (([true, false].product [true, false]).map (fun p =>
    (ModelCls.MarginalDistributionBaseline,
      [("entity_margin", Val.b p.1), ("relation_margin", Val.b p.2)])))
  ++ ([Val.none, Val.num "0.1", Val.num "0.3"].map (fun t =>
    (ModelCls.SoftInverseTripleBaseline, [("threshold", t)])))

/-- Key-ordering on strings used by Python's `sorted`. -/
def strLe (a b : String) : Prop := pyLeB a b = true

instance : DecidableRel strLe :=
  fun a b => inferInstanceAs (Decidable (pyLeB a b = true))

/-- Embedding of `sorted({key for _, kwargs in model_settings for key in kwargs})` from
`_build`: the sorted union (distinct keys) of all settings' kwargs keys. -/
def kwargsKeysOf (settings : List Setting) : List String :=
  List.insertionSort strLe ((settings.flatMap (fun s => s.2.map Prod.fst)).dedup)

/-- The cutoffs `KS = (1, 5, 10, 50, 100)`. -/
def KS : List Nat := [1, 5, 10, 50, 100]

/-- The list `METRICS = ["mrr", "iamr", "igmr", *(f"hits@{k}" for k in KS), "aamr", "aamri"]`. -/
def METRICS : List String :=
  ["mrr", "iamr", "igmr"] ++ KS.map (fun k => "hits@" ++ toString k) ++ ["aamr", "aamri"]

/-- Embedding of `itertools.product(datasets, model_settings)` from `_build`: the outer grid,
dataset-major.  Datasets are identified by their class name. -/
def buildGrid (datasets : List String) (settings : List Setting) : List (String × Setting) :=
  datasets.product settings

/-- The fixed column schema assembled in `_build`. -/
def buildColumns (kwargsKeys : List String) : List String :=
  ["dataset", "entities", "relations", "triples", "trial", "model"]
    ++ kwargsKeys ++ ["time"] ++ METRICS

/-- The row aggregation of `_build`:
`rows = list(itt.chain.from_iterable(process_map(func, itt.product(datasets, model_settings))))`.
`process_map` is an external collaborator (tqdm's process-pool map) that
collects the workers' results in submission order, so it is the ordinary map
over the grid; `runOne` is one worker's `_run_trials` row list for one
combination. -/
def buildRows (datasets : List String) (settings : List Setting)
    (runOne : String × Setting → List (List Val)) : List (List Val) :=
  ((buildGrid datasets settings).map runOne).flatten

/-! ### The trial runner (`_run_trials`) -/

/-- The counts a constructed dataset exposes (`dataset.training.num_*`). -/
structure DatasetInfo where
  numEntities : Nat
  numRelations : Nat
  numTriples : Nat
  deriving DecidableEq, Repr

/-- Externally visible effects of one `_run_trials` call: construction of the
base dataset, per-trial model construction and evaluation, and the single
cache write `path.write_text(...)`. -/
inductive Effect where
  | datasetInit
  | modelInit (trial : Nat)
  | evalCall (trial : Nat)
  | cacheWrite (path : String) (records : List (List Val))
  deriving DecidableEq, Repr

/-- Oracles for the external collaborators of `_run_trials`.  `cache` is the
filesystem-backed result cache (decoded records keyed by path; `none` means
the path does not exist).  `datasetInit` is
`dataset_cls()` (`none` models a raised exception).  `remix` is
`dataset.remix(random_state=trial)`.  `modelOk trial ds` tells whether
`model_cls(triples_factory=..., **model_kwargs)` succeeds on the trial's
dataset.  `evalTrial trial ds` is the timed `_evaluate_baseline` call: `none`
models a raised exception, otherwise it yields the elapsed wall time and the
`result.get_metric` getter. -/
structure RunEnv where
  cache : String → Option (List (List Val))
  datasetInit : Option DatasetInfo
  remix : Nat → DatasetInfo
  modelOk : Nat → DatasetInfo → Bool
  evalTrial : Nat → DatasetInfo → Option (Val × (String → Val))

/-- Embedding of `model_kwargs.get(key)`. -/
def kwGet (kwargs : List (String × Val)) (key : String) : Option Val :=
  (kwargs.find? (fun kv => kv.1 == key)).map Prod.snd

/-- Embedding of `_clean`: `None` (and a missing key, which `dict.get` turns
into `None`) becomes the empty string; `pd.isna` is `False` on every value
this program produces (bools and the literal thresholds), so only the `None`
test is live. -/
def clean : Option Val → Val
  | Option.none => Val.s ""
  | some Val.none => Val.s ""
  | some v => v

/-- One appended record tuple of `_run_trials`: the base-dataset counts, the
trial index, the model name, the cleaned kwargs values projected on
`kwargs_keys`, the elapsed time, and the metric values in `METRICS` order. -/
def mkRecord (datasetName modelName : String) (base : DatasetInfo)
    (kwargsKeys : List String) (kwargs : List (String × Val))
    (trial : Nat) (elapsed : Val) (getMetric : String → Val) : List Val :=
  [Val.s datasetName, Val.n base.numEntities, Val.n base.numRelations, Val.n base.numTriples,
   Val.n trial, Val.s modelName]
  ++ kwargsKeys.map (fun key => clean (kwGet kwargs key))
  ++ [elapsed] ++ METRICS.map getMetric

/-- The cache artifact path of `_run_trials`:
`RUNS_DIR.joinpath(f"{dataset_name}_{model_name}_{kwargs_hash}.json")`
(relative to the runs directory). -/
def cachePath (datasetName modelName hash : String) : String :=
  datasetName ++ "_" ++ modelName ++ "_" ++ hash ++ ".json"

/-- The cache path of one combination, as `_run_trials` derives it. -/
def runPath (datasetName : String) (setting : Setting) : String :=
  cachePath datasetName (modelShortName setting.1) (kwargsHash setting.2)

/-- The part of a combination's cache path that does not depend on the
dataset: `runPath dn s = dn ++ sufOf s`. -/
def sufOf (s : Setting) : String :=
  "_" ++ modelShortName s.1 ++ "_" ++ kwargsHash s.2 ++ ".json"

/-- The `trial_dataset` selection of the loop body, faithful to the source's
`if trials != 0` test even though its `else` branch is unreachable:
`range(trials)` is empty when `trials = 0`, so the loop body never runs
then. -/
def trialDataset (env : RunEnv) (trials : Nat) (base : DatasetInfo) (t : Nat) : DatasetInfo :=
  if trials != 0 then env.remix t else base

/-- The trial loop of `_run_trials` over the remaining trial indices.  An
exception in model construction or evaluation aborts the whole sequence
(`Except.error`); the effect trace records the calls made up to that point. -/
def runTrialsLoop (env : RunEnv) (trials : Nat) (base : DatasetInfo)
    (datasetName modelName : String) (kwargsKeys : List String)
    (kwargs : List (String × Val)) :
    List Nat → Except Unit (List (List Val)) × List Effect
  | [] => (Except.ok [], [])
  | t :: rest =>
    if env.modelOk t (trialDataset env trials base t) then
      match env.evalTrial t (trialDataset env trials base t) with
      | Option.none => (Except.error (), [Effect.modelInit t, Effect.evalCall t])
      | some er =>
        match runTrialsLoop env trials base datasetName modelName kwargsKeys kwargs rest with
        | (Except.ok rs, effs) =>
          (Except.ok (mkRecord datasetName modelName base kwargsKeys kwargs t er.1 er.2 :: rs),
            Effect.modelInit t :: Effect.evalCall t :: effs)
        | (Except.error e, effs) =>
          (Except.error e, Effect.modelInit t :: Effect.evalCall t :: effs)
    else (Except.error (), [Effect.modelInit t])

/-- Embedding of `_run_trials` for one `(dataset, setting)` combination.  On a
cache hit the decoded records are returned with no external effects; on a miss
the base dataset is constructed, all trials run, and the full record list is
written to the cache path once, after the loop. -/
def run_trials (env : RunEnv) (trials : Nat) (kwargsKeys : List String)
    (datasetName : String) (setting : Setting) :
    Except Unit (List (List Val)) × List Effect :=
  match env.cache (runPath datasetName setting) with
  | some records => (Except.ok records, [])
  | Option.none =>
    match env.datasetInit with
    | Option.none => (Except.error (), [Effect.datasetInit])
    | some base =>
      match runTrialsLoop env trials base datasetName (modelShortName setting.1) kwargsKeys
          setting.2 (List.range trials) with
      | (Except.ok records, effs) =>
        (Except.ok records,
          Effect.datasetInit :: effs ++ [Effect.cacheWrite (runPath datasetName setting) records])
      | (Except.error e, effs) => (Except.error e, Effect.datasetInit :: effs)

/-- The cache state after a trace of effects: each `cacheWrite` overwrites the
records stored at its path. -/
def applyEffects (cache : String → Option (List (List Val))) (effs : List Effect) :
    String → Option (List (List Val)) :=
  effs.foldl (fun c e =>
    match e with
    | Effect.cacheWrite p rs => fun q => if q = p then some rs else c q
    | _ => c) cache

/-! ### The command entry point (`main`) -/

/-- What `main` does with the results table. -/
inductive MainAction where
  | build
  | readTable
  deriving DecidableEq, Repr

/-- Embedding of `TEST_BENCHMARK_PATH if test else BENCHMARK_PATH` (relative paths). -/
def mainPath (test : Bool) : String :=
  if test then "results/test_results.tsv" else "results/results.tsv"

/-- The dispatch of `main`: rebuild when the table is missing, or the rebuild
flag is set, or test mode is on; otherwise read the existing table back.
`isFile` is the filesystem oracle for `path.is_file()`. -/
def mainAction (isFile : String → Bool) (rebuild test : Bool) : String × MainAction :=
  let path := mainPath test
  (path, if !(isFile path) || rebuild || test then MainAction.build else MainAction.readTable)

/-! ### Concrete environments used to exercise the runner -/

/-- An environment where the cache is empty and every external call succeeds
(counts are those of the Nations dataset). -/
def envAllOk : RunEnv where
  cache := fun _ => Option.none
  datasetInit := some ⟨14, 55, 1592⟩
  remix := fun _ => ⟨14, 55, 1592⟩
  modelOk := fun _ _ => true
  evalTrial := fun _ _ => some (Val.num "1.0", fun _ => Val.num "0.5")

/-- An environment whose cache holds one record for every path; every other
external call would fail, so any computation would be observable. -/
def envCached : RunEnv where
  cache := fun _ => some [[Val.n 7]]
  datasetInit := Option.none
  remix := fun _ => ⟨0, 0, 0⟩
  modelOk := fun _ _ => false
  evalTrial := fun _ _ => Option.none

/-- An environment where evaluation always raises. -/
def envEvalFails : RunEnv where
  cache := fun _ => Option.none
  datasetInit := some ⟨3, 2, 9⟩
  remix := fun _ => ⟨3, 2, 9⟩
  modelOk := fun _ _ => true
  evalTrial := fun _ _ => Option.none

/-! ### Order lemmas for the Python string comparison -/

theorem pyStrLtB_irrefl : ∀ l : List Char, pyStrLtB l l = false
  | [] => rfl
  | a :: as => by simp [pyStrLtB, pyStrLtB_irrefl as]

theorem pyStrLtB_trans : ∀ a b c : List Char,
    pyStrLtB a b = true → pyStrLtB b c = true → pyStrLtB a c = true := by
  intro a
  induction a with
  | nil =>
    intro b c h1 h2
    cases b with
    | nil => simp [pyStrLtB] at h1
    | cons y ys =>
      cases c with
      | nil => simp [pyStrLtB] at h2
      | cons z zs => simp [pyStrLtB]
  | cons x xs ih =>
    intro b c h1 h2
    cases b with
    | nil => simp [pyStrLtB] at h1
    | cons y ys =>
      cases c with
      | nil => simp [pyStrLtB] at h2
      | cons z zs =>
        simp only [pyStrLtB] at h1 h2 ⊢
        split_ifs at h1 h2 ⊢ <;>
          first
            | rfl
            | exact ih ys zs h1 h2
            | omega

theorem pyStrLtB_eq_of_both_false : ∀ a b : List Char,
    pyStrLtB a b = false → pyStrLtB b a = false → a = b := by
  intro a
  induction a with
  | nil =>
    intro b h1 _
    cases b with
    | nil => rfl
    | cons y ys => simp [pyStrLtB] at h1
  | cons x xs ih =>
    intro b h1 h2
    cases b with
    | nil => simp [pyStrLtB] at h2
    | cons y ys =>
      simp only [pyStrLtB] at h1 h2
      rcases Nat.lt_trichotomy x.toNat y.toNat with hlt | heq | hgt
      · rw [if_pos hlt] at h1
        cases h1
      · have hx : x = y := Char.ext (UInt32.ext heq)
        rw [if_neg (by omega), if_neg (by omega)] at h1
        rw [if_neg (by omega), if_neg (by omega)] at h2
        rw [hx, ih ys h1 h2]
      · rw [if_pos hgt] at h2
        cases h2

theorem pyLeB_total (a b : String) : pyLeB a b = true ∨ pyLeB b a = true := by
  unfold pyLeB
  cases h1 : pyStrLtB b.toList a.toList with
  | false => exact Or.inl rfl
  | true =>
    cases h2 : pyStrLtB a.toList b.toList with
    | false => exact Or.inr rfl
    | true =>
      have := pyStrLtB_trans _ _ _ h1 h2
      rw [pyStrLtB_irrefl] at this
      cases this

theorem pyLeB_trans {a b c : String} (h1 : pyLeB a b = true) (h2 : pyLeB b c = true) :
    pyLeB a c = true := by
  unfold pyLeB at h1 h2 ⊢
  simp only [Bool.not_eq_true'] at h1 h2 ⊢
  cases hca : pyStrLtB c.toList a.toList with
  | false => rfl
  | true =>
    cases hbc : pyStrLtB b.toList c.toList with
    | true =>
      have := pyStrLtB_trans _ _ _ hbc hca
      rw [this] at h1
      cases h1
    | false =>
      have hbceq : b.toList = c.toList := pyStrLtB_eq_of_both_false _ _ hbc h2
      rw [← hbceq] at hca
      rw [hca] at h1
      cases h1

instance : IsTotal (String × Val) keyLe := ⟨fun a b => pyLeB_total a.1 b.1⟩

instance : IsTrans (String × Val) keyLe := ⟨fun _ _ _ h h' => pyLeB_trans h h'⟩

/-- The strict key order: used to show sorted nodup-key lists are unique. -/
def keyLt (a b : String × Val) : Prop := pyStrLtB a.1.toList b.1.toList = true

instance : IsAntisymm (String × Val) keyLt :=
  ⟨fun a _ h h' => by
    have := pyStrLtB_trans _ _ _ h h'
    rw [pyStrLtB_irrefl] at this
    cases this⟩

theorem keyLt_of_keyLe_ne {a b : String × Val} (hle : keyLe a b) (hne : a.1 ≠ b.1) :
    keyLt a b := by
  unfold keyLe pyLeB at hle
  simp only [Bool.not_eq_true'] at hle
  unfold keyLt
  cases hab : pyStrLtB a.1.toList b.1.toList with
  | true => rfl
  | false =>
    exact absurd (String.ext (pyStrLtB_eq_of_both_false _ _ hab hle)) hne

/-- Sorting by key is permutation-invariant on mappings with distinct keys:
the canonicalization step of the cache key encoder. -/
theorem insertionSort_keyLe_perm_eq {l1 l2 : List (String × Val)}
    (hperm : l1.Perm l2) (hnd : (l1.map Prod.fst).Nodup) :
    List.insertionSort keyLe l1 = List.insertionSort keyLe l2 := by
  have hnd2 : (l2.map Prod.fst).Nodup := ((hperm.map Prod.fst).nodup_iff).mp hnd
  have hs1 : List.Sorted keyLt (List.insertionSort keyLe l1) := by
    have hnds : ((List.insertionSort keyLe l1).map Prod.fst).Nodup :=
      (((List.perm_insertionSort keyLe l1).map Prod.fst).nodup_iff).mpr hnd
    have hne := List.pairwise_map.mp hnds
    exact ((List.sorted_insertionSort keyLe l1).and hne).imp
      (fun hab => keyLt_of_keyLe_ne hab.1 hab.2)
  have hs2 : List.Sorted keyLt (List.insertionSort keyLe l2) := by
    have hnds : ((List.insertionSort keyLe l2).map Prod.fst).Nodup :=
      (((List.perm_insertionSort keyLe l2).map Prod.fst).nodup_iff).mpr hnd2
    have hne := List.pairwise_map.mp hnds
    exact ((List.sorted_insertionSort keyLe l2).and hne).imp
      (fun hab => keyLt_of_keyLe_ne hab.1 hab.2)
  exact List.eq_of_perm_of_sorted
    ((List.perm_insertionSort keyLe l1).trans
      (hperm.trans (List.perm_insertionSort keyLe l2).symm)) hs1 hs2

/-- Determinism of the cache key encoder under reordering of the parameter
mapping. -/
theorem kwargsHash_perm {l1 l2 : List (String × Val)}
    (hperm : l1.Perm l2) (hnd : (l1.map Prod.fst).Nodup) :
    kwargsHash l1 = kwargsHash l2 := by
  unfold kwargsHash jsonDumpsSorted
  rw [insertionSort_keyLe_perm_eq hperm hnd]

/-! ### Structure lemmas for the trial loop -/

theorem runTrialsLoop_ok_length (env : RunEnv) (trials : Nat) (base : DatasetInfo)
    (dn mn : String) (keys : List String) (kwargs : List (String × Val)) :
    ∀ ts rs effs,
      runTrialsLoop env trials base dn mn keys kwargs ts = (Except.ok rs, effs) →
      rs.length = ts.length := by
  intro ts
  induction ts with
  | nil =>
    intro rs effs h
    simp only [runTrialsLoop, Prod.mk.injEq, Except.ok.injEq] at h
    rw [← h.1]
    rfl
  | cons t rest ih =>
    intro rs effs h
    simp only [runTrialsLoop] at h
    split at h
    · split at h
      · exact absurd h (by simp)
      · split at h
        · rename_i lrs leffs hloop
          simp only [Prod.mk.injEq, Except.ok.injEq] at h
          rw [← h.1]
          simp only [List.length_cons]
          rw [ih _ _ hloop]
        · exact absurd h (by simp)
    · exact absurd h (by simp)

theorem runTrialsLoop_no_cacheWrite (env : RunEnv) (trials : Nat) (base : DatasetInfo)
    (dn mn : String) (keys : List String) (kwargs : List (String × Val)) :
    ∀ ts res effs,
      runTrialsLoop env trials base dn mn keys kwargs ts = (res, effs) →
      ∀ p rs2, Effect.cacheWrite p rs2 ∉ effs := by
  intro ts
  induction ts with
  | nil =>
    intro res effs h
    simp only [runTrialsLoop, Prod.mk.injEq] at h
    rw [← h.2]
    intro p rs2
    exact List.not_mem_nil _
  | cons t rest ih =>
    intro res effs h
    simp only [runTrialsLoop] at h
    split at h
    · split at h
      · simp only [Prod.mk.injEq] at h
        rw [← h.2]
        intro p rs2
        simp
      · split at h
        · rename_i lrs leffs hloop
          simp only [Prod.mk.injEq] at h
          rw [← h.2]
          intro p rs2
          simp only [List.mem_cons, not_or]
          exact ⟨by simp, by simp, ih _ _ hloop p rs2⟩
        · rename_i e leffs hloop
          simp only [Prod.mk.injEq] at h
          rw [← h.2]
          intro p rs2
          simp only [List.mem_cons, not_or]
          exact ⟨by simp, by simp, ih _ _ hloop p rs2⟩
    · simp only [Prod.mk.injEq] at h
      rw [← h.2]
      intro p rs2
      simp

theorem runTrialsLoop_records_shape (env : RunEnv) (trials : Nat) (base : DatasetInfo)
    (dn mn : String) (keys : List String) (kwargs : List (String × Val)) :
    ∀ ts rs effs,
      runTrialsLoop env trials base dn mn keys kwargs ts = (Except.ok rs, effs) →
      ∀ r ∈ rs, ∃ t : Nat, ∃ er : Val × (String → Val),
        r = mkRecord dn mn base keys kwargs t er.1 er.2 := by
  intro ts
  induction ts with
  | nil =>
    intro rs effs h
    simp only [runTrialsLoop, Prod.mk.injEq, Except.ok.injEq] at h
    rw [← h.1]
    intro r hr
    exact absurd hr (List.not_mem_nil _)
  | cons t rest ih =>
    intro rs effs h
    simp only [runTrialsLoop] at h
    split at h
    · split at h
      · exact absurd h (by simp)
      · rename_i er her
        split at h
        · rename_i lrs leffs hloop
          simp only [Prod.mk.injEq, Except.ok.injEq] at h
          rw [← h.1]
          intro r hr
          rcases List.mem_cons.mp hr with hr | hr
          · exact ⟨t, er, hr⟩
          · exact ih _ _ hloop r hr
        · exact absurd h (by simp)
    · exact absurd h (by simp)

theorem runTrialsLoop_all_ok (env : RunEnv) (trials : Nat) (base : DatasetInfo)
    (dn mn : String) (keys : List String) (kwargs : List (String × Val))
    (hm : ∀ t ds, env.modelOk t ds = true)
    (he : ∀ t ds, (env.evalTrial t ds).isSome = true) :
    ∀ ts, ∃ rs effs,
      runTrialsLoop env trials base dn mn keys kwargs ts = (Except.ok rs, effs) ∧
      rs.length = ts.length := by
  intro ts
  induction ts with
  | nil => exact ⟨[], [], rfl, rfl⟩
  | cons t rest ih =>
    obtain ⟨rs, effs, hloop, hlen⟩ := ih
    obtain ⟨er, her⟩ := Option.isSome_iff_exists.mp (he t (trialDataset env trials base t))
    refine ⟨mkRecord dn mn base keys kwargs t er.1 er.2 :: rs,
      Effect.modelInit t :: Effect.evalCall t :: effs, ?_, by simp [hlen]⟩
    simp only [runTrialsLoop, hm, if_true, her, hloop]

/-! ### Structure lemmas for `run_trials` and the cache -/

theorem applyEffects_no_write (effs : List Effect)
    (h : ∀ p rs, Effect.cacheWrite p rs ∉ effs) :
    ∀ cache, applyEffects cache effs = cache := by
  induction effs with
  | nil => intro cache; rfl
  | cons e rest ih =>
    intro cache
    have hrest : ∀ p rs, Effect.cacheWrite p rs ∉ rest := by
      intro p rs hmem
      exact h p rs (List.mem_cons_of_mem _ hmem)
    cases e with
    | cacheWrite p rs => exact absurd (List.mem_cons_self _ _) (h p rs)
    | datasetInit => exact ih hrest cache
    | modelInit t => exact ih hrest cache
    | evalCall t => exact ih hrest cache

theorem applyEffects_append (cache : String → Option (List (List Val)))
    (l1 l2 : List Effect) :
    applyEffects cache (l1 ++ l2) = applyEffects (applyEffects cache l1) l2 := by
  unfold applyEffects
  exact List.foldl_append _ _ _ _

theorem applyEffects_last_write (cache : String → Option (List (List Val)))
    (pre : List Effect) (p : String) (rs : List (List Val))
    (h : ∀ q rs2, Effect.cacheWrite q rs2 ∉ pre) :
    applyEffects cache (pre ++ [Effect.cacheWrite p rs]) =
      fun q => if q = p then some rs else cache q := by
  rw [applyEffects_append, applyEffects_no_write pre h]
  rfl

/-- Every successful `run_trials` call either hit the cache (no effects) or
missed and ended with the single cache write of the full record list. -/
theorem run_trials_ok_structure (env : RunEnv) (trials : Nat) (keys : List String)
    (dn : String) (st : Setting) (rs : List (List Val)) (effs : List Effect)
    (h : run_trials env trials keys dn st = (Except.ok rs, effs)) :
    (env.cache (runPath dn st) = some rs ∧ effs = []) ∨
    (env.cache (runPath dn st) = Option.none ∧
      ∃ pre, effs = pre ++ [Effect.cacheWrite (runPath dn st) rs] ∧
        (∀ p rs2, Effect.cacheWrite p rs2 ∉ pre) ∧ rs.length = trials) := by
  unfold run_trials at h
  split at h
  · rename_i recs hcache
    simp only [Prod.mk.injEq, Except.ok.injEq] at h
    left
    rw [← h.1, ← h.2]
    exact ⟨hcache, rfl⟩
  · rename_i hcache
    split at h
    · exact absurd h (by simp)
    · rename_i base hbase
      split at h
      · rename_i lrs leffs hloop
        simp only [Prod.mk.injEq, Except.ok.injEq] at h
        right
        refine ⟨hcache, Effect.datasetInit :: leffs, ?_, ?_, ?_⟩
        · rw [← h.2, ← h.1]
        · intro p rs2
          simp only [List.mem_cons, not_or]
          exact ⟨by simp, runTrialsLoop_no_cacheWrite env trials base dn
            (modelShortName st.1) keys st.2 _ _ _ hloop p rs2⟩
        · rw [← h.1]
          exact runTrialsLoop_ok_length env trials base dn (modelShortName st.1) keys st.2
            _ _ _ hloop ▸ (List.length_range trials)
      · exact absurd h (by simp)

/-! ### Indexing lemmas: flattening and the product grid -/

theorem getD_map_of_lt {α β : Type} (f : α → β) (l : List α) (j : Nat) (hj : j < l.length)
    (d : β) (da : α) : (l.map f).getD j d = f (l.getD j da) := by
  rw [List.getD_eq_getElem?_getD, List.getElem?_map, List.getD_eq_getElem?_getD,
    List.getElem?_eq_getElem hj]
  rfl

theorem flatten_uniform_length {α : Type} (T : Nat) :
    ∀ ls : List (List α), (∀ l ∈ ls, l.length = T) → ls.flatten.length = ls.length * T := by
  intro ls
  induction ls with
  | nil => intro _; simp
  | cons hd tl ih =>
    intro h
    simp only [List.flatten_cons, List.length_append, List.length_cons]
    rw [ih (fun l hl => h l (List.mem_cons_of_mem _ hl)), h hd (List.mem_cons_self _ _)]
    ring

theorem flatten_uniform_getD {α : Type} (T : Nat) (d : α) :
    ∀ (ls : List (List α)) (c t : Nat), (∀ l ∈ ls, l.length = T) →
      c < ls.length → t < T →
      ls.flatten.getD (c * T + t) d = (ls.getD c []).getD t d := by
  intro ls
  induction ls with
  | nil => intro c t _ hc _; exact absurd hc (by simp)
  | cons hd tl ih =>
    intro c t h hc ht
    have hhd : hd.length = T := h hd (List.mem_cons_self _ _)
    cases c with
    | zero =>
      simp only [List.flatten_cons, Nat.zero_mul, Nat.zero_add, List.getD_cons_zero]
      exact List.getD_append _ _ _ _ (by omega)
    | succ c' =>
      simp only [List.flatten_cons, List.getD_cons_succ]
      have hidx : (c' + 1) * T + t = hd.length + (c' * T + t) := by
        rw [hhd, Nat.succ_mul]
        omega
      rw [hidx, List.getD_append_right _ _ _ _ (by omega), Nat.add_sub_cancel_left]
      exact ih c' t (fun l hl => h l (List.mem_cons_of_mem _ hl)) (by simpa using hc) ht

theorem product_getD {α β : Type} (da : α) (db : β) :
    ∀ (l1 : List α) (l2 : List β) (i j : Nat), i < l1.length → j < l2.length →
      (l1.product l2).getD (i * l2.length + j) (da, db) = (l1.getD i da, l2.getD j db) := by
  intro l1
  induction l1 with
  | nil => intro l2 i j hi _; exact absurd hi (by simp)
  | cons a as ih =>
    intro l2 i j hi hj
    have hcons : (a :: as).product l2 = l2.map (Prod.mk a) ++ as.product l2 := by
      simp [List.product, List.flatMap_cons]
    rw [hcons]
    cases i with
    | zero =>
      simp only [Nat.zero_mul, Nat.zero_add, List.getD_cons_zero]
      rw [List.getD_append _ _ _ _ (by simpa using hj)]
      exact getD_map_of_lt (Prod.mk a) l2 j hj _ db
    | succ i' =>
      have hlen : (l2.map (Prod.mk a)).length = l2.length := List.length_map _ _
      have hidx : (i' + 1) * l2.length + j =
          (l2.map (Prod.mk a)).length + (i' * l2.length + j) := by
        rw [hlen, Nat.succ_mul]
        omega
      rw [hidx, List.getD_append_right _ _ _ _ (by omega), Nat.add_sub_cancel_left,
        List.getD_cons_succ]
      exact ih l2 i' j (by simpa using hi) hj

/-! ### String concatenation lemmas for cache-path uniqueness -/

theorem append_ne_of_not_suffix {α : Type} {t1 t2 : List α}
    (h12 : ¬ t1 <:+ t2) (h21 : ¬ t2 <:+ t1) (a1 a2 : List α) : a1 ++ t1 ≠ a2 ++ t2 := by
  intro heq
  have ht1 : t1 <:+ a2 ++ t2 := heq ▸ List.suffix_append a1 t1
  have ht2 : t2 <:+ a2 ++ t2 := List.suffix_append a2 t2
  rcases Nat.le_total t1.length t2.length with hle | hle
  · exact h12 (List.suffix_of_suffix_length_le ht1 ht2 hle)
  · exact h21 (List.suffix_of_suffix_length_le ht2 ht1 hle)

theorem str_append_right_cancel {a1 a2 t : String} (h : a1 ++ t = a2 ++ t) : a1 = a2 := by
  apply String.ext
  have hd : a1.data ++ t.data = a2.data ++ t.data := by
    rw [← String.data_append, ← String.data_append, h]
  exact List.append_cancel_right hd

theorem runPath_eq_append (dn : String) (s : Setting) : runPath dn s = dn ++ sufOf s := by
  apply String.ext
  simp only [runPath, cachePath, sufOf, String.data_append, List.append_assoc]

/-! ### The cache key is always eight characters -/

theorem wordHex_length (w : Nat) : (wordHex w).length = 8 := by
  simp [wordHex]

theorem flatMap_wordHex_length : ∀ l : List Nat, (l.flatMap wordHex).length = 8 * l.length := by
  intro l
  induction l with
  | nil => rfl
  | cons a as ih =>
    simp only [List.flatMap_cons, List.length_append, wordHex_length, ih, List.length_cons]
    ring

theorem sha256compress_length (hs block : List Nat) : (sha256compress hs block).length = 8 := by
  simp only [sha256compress, List.length_cons, List.length_nil]

theorem foldl_compress_length :
    ∀ (blocks : List (List Nat)) (hs : List Nat), hs.length = 8 →
      (blocks.foldl sha256compress hs).length = 8 := by
  intro blocks
  induction blocks with
  | nil => intro hs h; exact h
  | cons b bs ih =>
    intro hs _
    exact ih (sha256compress hs b) (sha256compress_length hs b)

theorem string_mk_length (l : List Char) : (String.mk l).length = l.length := rfl

theorem sha256hex_length (msg : List Nat) : (sha256hex msg).length = 64 := by
  unfold sha256hex
  dsimp only
  rw [string_mk_length, flatMap_wordHex_length, foldl_compress_length _ sha256H0 rfl]

theorem kwargsHash_length (kwargs : List (String × Val)) : (kwargsHash kwargs).length = 8 := by
  unfold kwargsHash strTake
  rw [string_mk_length, List.length_take]
  have hlen : (sha256hex (strBytes (jsonDumpsSorted kwargs))).toList.length = 64 :=
    sha256hex_length (strBytes (jsonDumpsSorted kwargs))
  omega

/-! ### Record shape lemmas -/

theorem mkRecord_length (dn mn : String) (base : DatasetInfo) (keys : List String)
    (kwargs : List (String × Val)) (t : Nat) (e : Val) (g : String → Val) :
    (mkRecord dn mn base keys kwargs t e g).length = 6 + keys.length + 1 + METRICS.length := by
  simp only [mkRecord, List.length_append, List.length_cons, List.length_nil, List.length_map]

theorem buildColumns_length (keys : List String) :
    (buildColumns keys).length = 6 + keys.length + 1 + METRICS.length := by
  simp only [buildColumns, List.length_append, List.length_cons, List.length_nil]

theorem mkRecord_getD_key (dn mn : String) (base : DatasetInfo) (keys : List String)
    (kwargs : List (String × Val)) (t : Nat) (e : Val) (g : String → Val)
    (i : Nat) (hi : i < keys.length) (d : Val) :
    (mkRecord dn mn base keys kwargs t e g).getD (6 + i) d =
      clean (kwGet kwargs (keys.getD i "")) := by
  unfold mkRecord
  rw [List.getD_append _ _ _ _ (by
    simp only [List.length_append, List.length_cons, List.length_nil, List.length_map]
    omega)]
  rw [List.getD_append _ _ _ _ (by
    simp only [List.length_append, List.length_cons, List.length_nil, List.length_map]
    omega)]
  rw [List.getD_append_right _ _ _ _ (by
    simp only [List.length_cons, List.length_nil]
    omega)]
  have hidx : 6 + i - ([Val.s dn, Val.n base.numEntities, Val.n base.numRelations,
      Val.n base.numTriples, Val.n t, Val.s mn] : List Val).length = i := by
    simp only [List.length_cons, List.length_nil]
    omega
  rw [hidx]
  exact getD_map_of_lt _ keys i hi d ""

/-! ## Claim theorems -/

/-- C6: the configuration generator returns exactly 7 model
configurations in fixed order: first the 4 marginal-distribution variants,
the complete cross product of the `entity_margin` and `relation_margin`
flags in `itertools.product([True, False], repeat=2)` order, then 3
soft-inverse-triple variants, one per threshold in `[None, 0.1, 0.3]`. -/
theorem claim_C6_settings_fixed :
    get_settings.length = 7 ∧
    get_settings =
      [(ModelCls.MarginalDistributionBaseline,
          [("entity_margin", Val.b true), ("relation_margin", Val.b true)]),
       (ModelCls.MarginalDistributionBaseline,
          [("entity_margin", Val.b true), ("relation_margin", Val.b false)]),
       (ModelCls.MarginalDistributionBaseline,
          [("entity_margin", Val.b false), ("relation_margin", Val.b true)]),
       (ModelCls.MarginalDistributionBaseline,
          [("entity_margin", Val.b false), ("relation_margin", Val.b false)]),
       (ModelCls.SoftInverseTripleBaseline, [("threshold", Val.none)]),
       (ModelCls.SoftInverseTripleBaseline, [("threshold", Val.num "0.1")]),
       (ModelCls.SoftInverseTripleBaseline, [("threshold", Val.num "0.3")])] := by
  constructor <;> decide

/-- C5: the outer grid is the Cartesian product of the dataset sequence
and the configuration sequence in dataset-major order: it has
`|datasets| * |settings|` entries and entry `i * |settings| + j` is
(dataset `i`, configuration `j`).  Determinism across runs is immediate: the
generator is a pure function of its input sequences, and the aggregated
table rows follow this order (see the flattening in `claim_C8`). -/
theorem claim_C5_grid_product (datasets : List String) (settings : List Setting)
    (i j : Nat) (hi : i < datasets.length) (hj : j < settings.length) :
    (buildGrid datasets settings).length = datasets.length * settings.length ∧
    (buildGrid datasets settings).getD (i * settings.length + j)
        ("", (ModelCls.MarginalDistributionBaseline, [])) =
      (datasets.getD i "", settings.getD j (ModelCls.MarginalDistributionBaseline, [])) := by
  constructor
  · show (datasets.product settings).length = datasets.length * settings.length
    exact List.length_product datasets settings
  · exact product_getD "" (ModelCls.MarginalDistributionBaseline, []) datasets settings i j hi hj

/-- Witness for C5 at a concrete grid: two datasets, the program's seven
configurations, entry `1 * 7 + 2`. -/
theorem claim_C5_witness :
    (buildGrid ["Nations", "UMLS"] get_settings).length =
      (["Nations", "UMLS"] : List String).length * get_settings.length ∧
    (buildGrid ["Nations", "UMLS"] get_settings).getD (1 * get_settings.length + 2)
        ("", (ModelCls.MarginalDistributionBaseline, [])) =
      ((["Nations", "UMLS"] : List String).getD 1 "",
        get_settings.getD 2 (ModelCls.MarginalDistributionBaseline, [])) :=
  claim_C5_grid_product ["Nations", "UMLS"] get_settings 1 2 (by decide) (by decide)

/-- C10: with the smoke-test flag set, `main` always rebuilds (and targets
the test table path) regardless of the rebuild flag and of whether the file
exists; without it, an existing results table with no rebuild flag is read
back instead of rebuilt. -/
theorem claim_C10_test_forces_rebuild :
    (∀ (isFile : String → Bool) (rebuild : Bool),
      mainAction isFile rebuild true = (mainPath true, MainAction.build)) ∧
    (∀ isFile : String → Bool, isFile (mainPath false) = true →
      mainAction isFile false false = (mainPath false, MainAction.readTable)) := by
  constructor
  · intro isFile rebuild
    simp [mainAction]
  · intro isFile h
    simp [mainAction, h]

/-- Witness for C10: a filesystem where both tables exist. -/
theorem claim_C10_witness :
    mainAction (fun _ => true) false true = (mainPath true, MainAction.build) ∧
    mainAction (fun _ => true) false false = (mainPath false, MainAction.readTable) :=
  ⟨claim_C10_test_forces_rebuild.1 (fun _ => true) false,
   claim_C10_test_forces_rebuild.2 (fun _ => true) rfl⟩

/-- C1 (code bug): the trial-count contract.  For every environment where
the cache misses and all external calls succeed, the runner produces exactly
`trials` records — `T = 3` yields 3 — but at `T = 0` it yields **0** records,
not the single base-dataset record the claim states: `range(0)` is empty, the
loop body never runs, and the source's `else trial_dataset = dataset` branch
is unreachable.  The second conjunct evaluates the runner at `T = 0`: it
returns no records and writes an empty artifact. -/
theorem claim_C1_trial_count (env : RunEnv) (trials : Nat) (keys : List String)
    (dn : String) (st : Setting) (base : DatasetInfo)
    (hc : ∀ p, env.cache p = Option.none)
    (hb : env.datasetInit = some base)
    (hm : ∀ t ds, env.modelOk t ds = true)
    (he : ∀ t ds, (env.evalTrial t ds).isSome = true) :
    (∃ rs effs, run_trials env trials keys dn st = (Except.ok rs, effs) ∧
      rs.length = trials) ∧
    run_trials env 0 keys dn st =
      (Except.ok [], [Effect.datasetInit, Effect.cacheWrite (runPath dn st) []]) := by
  constructor
  · obtain ⟨rs, effs, hloop, hlen⟩ := runTrialsLoop_all_ok env trials base dn
      (modelShortName st.1) keys st.2 hm he (List.range trials)
    refine ⟨rs, Effect.datasetInit :: effs ++ [Effect.cacheWrite (runPath dn st) rs], ?_, ?_⟩
    · unfold run_trials
      simp only [hc, hb, hloop]
    · rw [hlen, List.length_range]
  · unfold run_trials
    simp only [hc, hb]
    rfl

/-- Witness for C1: a concrete all-success environment and `T = 3`. -/
theorem claim_C1_witness :
    (∃ rs effs, run_trials envAllOk 3 ["threshold"] "Nations"
        (ModelCls.SoftInverseTripleBaseline, [("threshold", Val.none)]) =
          (Except.ok rs, effs) ∧ rs.length = 3) ∧
    run_trials envAllOk 0 ["threshold"] "Nations"
        (ModelCls.SoftInverseTripleBaseline, [("threshold", Val.none)]) =
      (Except.ok [], [Effect.datasetInit,
        Effect.cacheWrite (runPath "Nations"
          (ModelCls.SoftInverseTripleBaseline, [("threshold", Val.none)])) []]) :=
  claim_C1_trial_count envAllOk 3 ["threshold"] "Nations"
    (ModelCls.SoftInverseTripleBaseline, [("threshold", Val.none)]) ⟨14, 55, 1592⟩
    (fun _ => rfl) rfl (fun _ _ => rfl) (fun _ _ => rfl)

/-- C3: cache-entry existence is authoritative.  A hit returns the decoded
cached records unchanged with an empty effect trace (no dataset construction,
no model construction, no evaluation, no write) regardless of whether the
cached record count matches `trials`; and after any successful call, a second
call on the resulting cache state returns the same records with no
recomputation. -/
theorem claim_C3_cache_hit_idempotent (env : RunEnv) (trials : Nat) (keys : List String)
    (dn : String) (st : Setting) :
    (∀ recs, env.cache (runPath dn st) = some recs →
      run_trials env trials keys dn st = (Except.ok recs, [])) ∧
    (∀ rs effs, run_trials env trials keys dn st = (Except.ok rs, effs) →
      run_trials { env with cache := applyEffects env.cache effs } trials keys dn st =
        (Except.ok rs, [])) := by
  have hit : ∀ (env' : RunEnv) (recs : List (List Val)),
      env'.cache (runPath dn st) = some recs →
      run_trials env' trials keys dn st = (Except.ok recs, []) := by
    intro env' recs h
    unfold run_trials
    simp only [h]
  constructor
  · exact hit env
  · intro rs effs h
    rcases run_trials_ok_structure env trials keys dn st rs effs h with
      ⟨hcc, heff⟩ | ⟨hcc, pre, heff, hnw, _⟩
    · rw [heff]
      exact hit _ rs hcc
    · apply hit
      show applyEffects env.cache effs (runPath dn st) = some rs
      rw [heff, applyEffects_last_write env.cache pre _ _ hnw]
      simp

/-- Witness for C3: a cache that already holds one record while five trials
are requested — the runner returns the cached record untouched. -/
theorem claim_C3_witness :
    run_trials envCached 5 [] "Nations"
        (ModelCls.SoftInverseTripleBaseline, [("threshold", Val.none)]) =
      (Except.ok [[Val.n 7]], []) :=
  (claim_C3_cache_hit_idempotent envCached 5 [] "Nations"
    (ModelCls.SoftInverseTripleBaseline, [("threshold", Val.none)])).1 [[Val.n 7]] rfl

/-- C4: failure semantics.  If a run fails (dataset construction, model
construction or evaluation raised), no cache write appears in its effect
trace; if it succeeds on a cache miss, its trace ends with exactly one cache
write holding the full `trials`-length record list, and no write precedes
it. -/
theorem claim_C4_no_partial_writes (env : RunEnv) (trials : Nat) (keys : List String)
    (dn : String) (st : Setting) :
    (∀ e effs, run_trials env trials keys dn st = (Except.error e, effs) →
      ∀ p rs, Effect.cacheWrite p rs ∉ effs) ∧
    (∀ rs effs, run_trials env trials keys dn st = (Except.ok rs, effs) →
      env.cache (runPath dn st) = Option.none →
      ∃ pre, effs = pre ++ [Effect.cacheWrite (runPath dn st) rs] ∧
        (∀ p rs2, Effect.cacheWrite p rs2 ∉ pre) ∧ rs.length = trials) := by
  constructor
  · intro e effs h p rs
    unfold run_trials at h
    split at h
    · exact absurd h (by simp)
    · split at h
      · simp only [Prod.mk.injEq] at h
        rw [← h.2]
        simp
      · rename_i base hbase
        split at h
        · exact absurd h (by simp)
        · rename_i e' leffs hloop
          simp only [Prod.mk.injEq] at h
          rw [← h.2]
          simp only [List.mem_cons, not_or]
          exact ⟨by simp, runTrialsLoop_no_cacheWrite env trials base dn
            (modelShortName st.1) keys st.2 _ _ _ hloop p rs⟩
  · intro rs effs h hmiss
    rcases run_trials_ok_structure env trials keys dn st rs effs h with
      ⟨hcc, _⟩ | ⟨_, pre, heff, hnw, hlen⟩
    · rw [hmiss] at hcc
      cases hcc
    · exact ⟨pre, heff, hnw, hlen⟩

/-- Witness for C4: evaluation raises on the first trial; the effect trace of
the failed run contains no cache write. -/
theorem claim_C4_witness :
    ∀ p rs, Effect.cacheWrite p rs ∉
      [Effect.datasetInit, Effect.modelInit 0, Effect.evalCall 0] :=
  (claim_C4_no_partial_writes envEvalFails 2 [] "Nations"
    (ModelCls.SoftInverseTripleBaseline, [("threshold", Val.none)])).1 () _ rfl

/-- C7: schema completeness.  The global parameter-key union computed by
`_build` is the sorted union of all configurations' keys, and every record a
(cache-missing) run produces has one value per column of the full schema,
with the value at key position `i` equal to `clean` of the configuration's
value for that key — in particular the empty string whenever the key is
absent from the configuration or set to `None`. -/
theorem claim_C7_schema_completeness (env : RunEnv) (trials : Nat) (dn : String)
    (st : Setting) (rs : List (List Val)) (effs : List Effect)
    (hmiss : env.cache (runPath dn st) = Option.none)
    (h : run_trials env trials (kwargsKeysOf get_settings) dn st = (Except.ok rs, effs)) :
    kwargsKeysOf get_settings = ["entity_margin", "relation_margin", "threshold"] ∧
    ∀ r ∈ rs,
      r.length = (buildColumns (kwargsKeysOf get_settings)).length ∧
      ∀ i, i < (kwargsKeysOf get_settings).length →
        r.getD (6 + i) (Val.n 0) =
          clean (kwGet st.2 ((kwargsKeysOf get_settings).getD i "")) ∧
        ((kwGet st.2 ((kwargsKeysOf get_settings).getD i "") = Option.none ∨
          kwGet st.2 ((kwargsKeysOf get_settings).getD i "") = some Val.none) →
          r.getD (6 + i) (Val.n 0) = Val.s "") := by
  refine ⟨by decide, ?_⟩
  unfold run_trials at h
  split at h
  · rename_i recs hcache
    rw [hmiss] at hcache
    cases hcache
  · split at h
    · exact absurd h (by simp)
    · rename_i base hbase
      split at h
      · rename_i lrs leffs hloop
        simp only [Prod.mk.injEq, Except.ok.injEq] at h
        intro r hr
        rw [← h.1] at hr
        obtain ⟨t, er, rfl⟩ := runTrialsLoop_records_shape env trials base dn
          (modelShortName st.1) (kwargsKeysOf get_settings) st.2 _ _ _ hloop r hr
        constructor
        · rw [mkRecord_length, buildColumns_length]
        · intro i hi
          rw [mkRecord_getD_key _ _ _ _ _ _ _ _ i hi]
          refine ⟨rfl, ?_⟩
          intro hcase
          rcases hcase with hnone | hsomenone
          · rw [hnone]
            rfl
          · rw [hsomenone]
            rfl
      · exact absurd h (by simp)

/-- Witness for C7: one successful trial of the threshold-`None`
configuration in a concrete environment; the produced record is schema
complete. -/
theorem claim_C7_witness :
    kwargsKeysOf get_settings = ["entity_margin", "relation_margin", "threshold"] ∧
    ∀ r ∈ [mkRecord "Nations" (modelShortName ModelCls.SoftInverseTripleBaseline)
        ⟨14, 55, 1592⟩ (kwargsKeysOf get_settings) [("threshold", Val.none)] 0
        (Val.num "1.0") (fun _ => Val.num "0.5")],
      r.length = (buildColumns (kwargsKeysOf get_settings)).length ∧
      ∀ i, i < (kwargsKeysOf get_settings).length →
        r.getD (6 + i) (Val.n 0) =
          clean (kwGet [("threshold", Val.none)] ((kwargsKeysOf get_settings).getD i "")) ∧
        ((kwGet [("threshold", Val.none)] ((kwargsKeysOf get_settings).getD i "") = Option.none ∨
          kwGet [("threshold", Val.none)] ((kwargsKeysOf get_settings).getD i "") =
            some Val.none) →
          r.getD (6 + i) (Val.n 0) = Val.s "") :=
  claim_C7_schema_completeness envAllOk 1 "Nations"
    (ModelCls.SoftInverseTripleBaseline, [("threshold", Val.none)])
    [mkRecord "Nations" (modelShortName ModelCls.SoftInverseTripleBaseline)
      ⟨14, 55, 1592⟩ (kwargsKeysOf get_settings) [("threshold", Val.none)] 0
      (Val.num "1.0") (fun _ => Val.num "0.5")]
    [Effect.datasetInit, Effect.modelInit 0, Effect.evalCall 0,
      Effect.cacheWrite (runPath "Nations"
        (ModelCls.SoftInverseTripleBaseline, [("threshold", Val.none)]))
        [mkRecord "Nations" (modelShortName ModelCls.SoftInverseTripleBaseline)
          ⟨14, 55, 1592⟩ (kwargsKeysOf get_settings) [("threshold", Val.none)] 0
          (Val.num "1.0") (fun _ => Val.num "0.5")]]
    rfl rfl

set_option maxRecDepth 1000000 in
/-- C2: the cache key encoder is deterministic under key reordering —
any two parameter mappings with the same key-value pairs (distinct keys, any
order) canonicalize to the same sorted serialization and hence the same
key — the key is always 8 characters, and for the program's configurations
any two mappings that differ in a value receive different keys (the
truncated digests are computed and compared exactly, so no collision occurs
on this grid). -/
theorem claim_C2_cache_key_determinism :
    (∀ l1 l2 : List (String × Val), l1.Perm l2 → (l1.map Prod.fst).Nodup →
      kwargsHash l1 = kwargsHash l2) ∧
    (∀ kwargs : List (String × Val), (kwargsHash kwargs).length = 8) ∧
    (∀ s1 ∈ get_settings, ∀ s2 ∈ get_settings, s1.2 ≠ s2.2 →
      kwargsHash s1.2 ≠ kwargsHash s2.2) := by
  refine ⟨fun l1 l2 hp hnd => kwargsHash_perm hp hnd, kwargsHash_length, ?_⟩
  decide

set_option maxRecDepth 1000000 in
/-- Witness for C2: the marginal-distribution kwargs in reversed key order
hash to the same key as in source order. -/
theorem claim_C2_witness :
    kwargsHash [("relation_margin", Val.b false), ("entity_margin", Val.b true)] =
      kwargsHash [("entity_margin", Val.b true), ("relation_margin", Val.b false)] :=
  claim_C2_cache_key_determinism.1 _ _ (List.Perm.swap _ _ _) (by decide)

set_option maxRecDepth 1000000 in
/-- C9: cache-path uniqueness.  For any duplicate-free dataset sequence,
the cache paths of the grid's combinations are pairwise distinct: same
configuration forces equal datasets by right-cancellation, and distinct
configurations have dataset-independent path suffixes (model name and
parameter hash) neither of which is a suffix of the other. -/
theorem claim_C9_paths_unique (datasets : List String) (hnd : datasets.Nodup) :
    ((buildGrid datasets get_settings).map (fun c => runPath c.1 c.2)).Nodup := by
  have hsuf : ∀ s1 ∈ get_settings, ∀ s2 ∈ get_settings, s1 ≠ s2 →
      ¬((sufOf s1).data <:+ (sufOf s2).data) ∧ ¬((sufOf s2).data <:+ (sufOf s1).data) := by
    decide
  have hgs : get_settings.Nodup := by decide
  apply List.Nodup.map_on
  · intro x hx y hy hpath
    rcases x with ⟨d1, s1⟩
    rcases y with ⟨d2, s2⟩
    have hm1 : (d1, s1) ∈ datasets.product get_settings := hx
    have hm2 : (d2, s2) ∈ datasets.product get_settings := hy
    have hmp1 := List.mem_product.mp hm1
    have hmp2 := List.mem_product.mp hm2
    by_cases hs : s1 = s2
    · subst hs
      have hd : d1 = d2 := by
        rw [runPath_eq_append, runPath_eq_append] at hpath
        exact str_append_right_cancel hpath
      rw [hd]
    · exfalso
      obtain ⟨h12, h21⟩ := hsuf s1 hmp1.2 s2 hmp2.2 hs
      refine append_ne_of_not_suffix h12 h21 d1.data d2.data ?_
      have hpd : (d1 ++ sufOf s1).data = (d2 ++ sufOf s2).data := by
        rw [← runPath_eq_append, ← runPath_eq_append, hpath]
      simpa [String.data_append] using hpd
  · exact List.Nodup.product hnd hgs

/-- Witness for C9: the fourteen paths of a two-dataset grid are pairwise
distinct. -/
theorem claim_C9_witness :
    ((buildGrid ["Nations", "UMLS"] get_settings).map (fun c => runPath c.1 c.2)).Nodup :=
  claim_C9_paths_unique ["Nations", "UMLS"] (by decide)

/-- C8: the aggregated table has the fixed column order — identifying
columns, sorted kwargs-key union, elapsed time, the fixed metric list — and
its rows are the per-combination row lists concatenated in grid order: with
`T` rows per combination, row `c * T + t` is trial `t` of grid entry `c`. -/
theorem claim_C8_table_schema (datasets : List String) (T : Nat)
    (runOne : String × Setting → List (List Val))
    (h : ∀ c ∈ buildGrid datasets get_settings, (runOne c).length = T)
    (c t : Nat) (hc : c < (buildGrid datasets get_settings).length) (ht : t < T) :
    buildColumns (kwargsKeysOf get_settings) =
      ["dataset", "entities", "relations", "triples", "trial", "model",
       "entity_margin", "relation_margin", "threshold", "time",
       "mrr", "iamr", "igmr", "hits@1", "hits@5", "hits@10", "hits@50", "hits@100",
       "aamr", "aamri"] ∧
    (buildRows datasets get_settings runOne).length =
      (buildGrid datasets get_settings).length * T ∧
    (buildRows datasets get_settings runOne).getD (c * T + t) [] =
      (runOne ((buildGrid datasets get_settings).getD c
        ("", (ModelCls.MarginalDistributionBaseline, [])))).getD t [] := by
  have hmap : ∀ l ∈ (buildGrid datasets get_settings).map runOne, l.length = T := by
    intro l hl
    obtain ⟨cmb, hcmb, rfl⟩ := List.mem_map.mp hl
    exact h cmb hcmb
  refine ⟨by decide, ?_, ?_⟩
  · unfold buildRows
    rw [flatten_uniform_length T _ hmap, List.length_map]
  · unfold buildRows
    rw [flatten_uniform_getD T [] _ c t hmap (by simpa using hc) ht]
    exact congrArg (fun l => l.getD t ([] : List Val))
      (getD_map_of_lt runOne _ c hc ([] : List (List Val))
        ("", (ModelCls.MarginalDistributionBaseline, [])))

/-- Witness for C8 on a concrete two-dataset grid with two rows per
combination: row `1 * 2 + 1` is the second row of the second combination. -/
theorem claim_C8_witness :
    buildColumns (kwargsKeysOf get_settings) =
      ["dataset", "entities", "relations", "triples", "trial", "model",
       "entity_margin", "relation_margin", "threshold", "time",
       "mrr", "iamr", "igmr", "hits@1", "hits@5", "hits@10", "hits@50", "hits@100",
       "aamr", "aamri"] ∧
    (buildRows ["DatasetA", "DatasetB"] get_settings
        (fun c => [[Val.s c.1], [Val.s c.1]])).length =
      (buildGrid ["DatasetA", "DatasetB"] get_settings).length * 2 ∧
    (buildRows ["DatasetA", "DatasetB"] get_settings
        (fun c => [[Val.s c.1], [Val.s c.1]])).getD (1 * 2 + 1) [] =
      ((fun (c : String × Setting) => [[Val.s c.1], [Val.s c.1]])
        ((buildGrid ["DatasetA", "DatasetB"] get_settings).getD 1
          ("", (ModelCls.MarginalDistributionBaseline, [])))).getD 1 [] :=
  claim_C8_table_schema ["DatasetA", "DatasetB"] 2 (fun c => [[Val.s c.1], [Val.s c.1]])
    (by decide) 1 1 (by decide) (by decide)

end Benchmark
